import Mathlib

/-!
Verification of the xts-summary resolution-extraction-diff pipeline.

The definitions below are a shallow embedding of the Python sources
`src/summary_tool/cli.py`, `src/diff_tool/cli.py` and
`src/diff_tool/html_report.py`.  Python strings are modelled as Lean
`String`/`List Char` (case mapping is modelled for ASCII, which covers the
configured subdirectory names), pandas DataFrames extracted from the
`testdetails` tables are modelled as lists of three-column rows
(`String × String × String` - the extractor pads every row to exactly three
columns), Python sets as `Finset String`, and fallible operations
(`iloc[0,0]`, attribute lookups, HTTP calls) as `Option`/`Except` values.
Every fallible external effect (HTTP HEAD/GET, link parsing, the filesystem
walk, file writes) is supplied through an explicit environment record so that
the control flow of the source can be followed verbatim.
-/

/-- One row of a `testdetails` pandas DataFrame: `(test, result, details)`.
The extractor normalizes every row to exactly three columns. -/
abbrev Row : Type := String × String × String

/-- A `testdetails` DataFrame: an ordered list of rows; row 0 is the
module-name row. -/
abbrev Df : Type := List Row

/-! ### Character-level models of Python string primitives -/

/-- Python `s.split(sep)` for a one-character separator: splits at every
occurrence and keeps empty pieces, so the result is always nonempty
(`''.split('/') == ['']`). -/
def pySplit (sep : Char) : List Char → List (List Char)
  | [] => [[]]
  | c :: rest =>
    let r := pySplit sep rest
    if c = sep then [] :: r else (c :: r.headD []) :: r.tail

/-- Python `c in s` for a character: membership in the character list. -/
def pyContains (s : String) (c : Char) : Bool := s.data.contains c

/-- The first maximal run of digits in a character list, as found by
`re.search(r"(\d+)", s)`: leftmost starting position, then as many digits as
possible. -/
def firstDigitRun : List Char → Option (List Char)
  | [] => none
  | c :: rest =>
    if c.isDigit then some (c :: rest.takeWhile Char.isDigit)
    else firstDigitRun rest

/-! ### `_extract_version` (src/diff_tool/html_report.py, lines 160-178)

```python
if not fingerprint: return None
parts = fingerprint.split('/')
if len(parts) < 5: return None
candidate = parts[4]
candidate = candidate.split(':')[0]
m = re.search(r"(\d+)", candidate)
return m.group(1) if m else None
```
-/

def extract_version (fingerprint : String) : Option String :=
  if fingerprint.data = [] then none
  else
    let parts := pySplit '/' fingerprint.data
    if parts.length < 5 then none
    else
      let candidate := parts.getD 4 []
      let candidate := (pySplit ':' candidate).headD []
      (firstDigitRun candidate).map fun l => String.mk l

/-- The head piece of a one-character split is the text before the first
occurrence of the separator. -/
theorem pySplit_headD (sep : Char) (s : List Char) :
    (pySplit sep s).headD [] = s.takeWhile (fun c => c ≠ sep) := by
  induction s with
  | nil => rfl
  | cons c rest ih =>
    simp only [List.headD_eq_head?_getD, ne_eq, decide_not] at ih
    by_cases h : c = sep <;>
      simp [pySplit, List.takeWhile_cons, h, ih, ne_eq, decide_not]

/-- Splitting the empty string yields one (empty) piece. -/
theorem pySplit_nil (sep : Char) : pySplit sep [] = [[]] := rfl

/-- C6: version extraction splits the fingerprint on `/`; with fewer than
five segments it reports no version; otherwise it takes the fifth segment,
discards everything from the first `:` onward, and returns the first run of
digits of the remainder if one exists, `none` otherwise. -/
theorem C6_extract_version_spec (fp : String) :
    ((pySplit '/' fp.data).length < 5 → extract_version fp = none) ∧
    (5 ≤ (pySplit '/' fp.data).length →
      extract_version fp =
        (firstDigitRun
          (((pySplit '/' fp.data).getD 4 []).takeWhile (fun c => c ≠ ':'))).map
            (fun l => String.mk l)) := by
  constructor
  · intro h
    unfold extract_version
    by_cases hfp : fp.data = []
    · simp [hfp]
    · simp [hfp, h]
  · intro h
    have hfp : fp.data ≠ [] := by
      intro hnil
      rw [hnil] at h
      simp [pySplit] at h
    unfold extract_version
    rw [← pySplit_headD ':' ((pySplit '/' fp.data).getD 4 [])]
    simp [hfp, Nat.not_lt.mpr h]

/-- Witness for C6 on the concrete fingerprint
`"google/flame/flame:11/RQ1A/672002:user/release-keys"`: it has at least five
segments and its version is `672002`. -/
theorem C6_extract_version_spec_witness :
    5 ≤ (pySplit '/' ("google/flame/flame:11/RQ1A/672002:user/release-keys" : String).data).length ∧
    extract_version "google/flame/flame:11/RQ1A/672002:user/release-keys" =
      (firstDigitRun
        (((pySplit '/' ("google/flame/flame:11/RQ1A/672002:user/release-keys" : String).data).getD 4
          []).takeWhile (fun c => c ≠ ':'))).map (fun l => String.mk l) :=
  ⟨by decide,
   (C6_extract_version_spec "google/flame/flame:11/RQ1A/672002:user/release-keys").2 (by decide)⟩

/-! ### Corpus-level test-name statistics
(src/diff_tool/html_report.py, generate_report, lines 249-255)

```python
left_tests = {str(val) for df in left_dfs for val in df.iloc[:, 0].astype(str).tolist() if '.' in str(val)}
right_tests = {str(val) for df in right_dfs for val in df.iloc[:, 0].astype(str).tolist() if '.' in str(val)}
same_count = len(left_tests & right_tests)
diff_count = len(left_tests ^ right_tests)
```
-/

/-- The first column (`df.iloc[:, 0]`) of a DataFrame. -/
def firstColumn (df : Df) : List String := df.map (fun r => r.1)

/-- The Python set of first-column values containing a `.` collected over a
side's DataFrames (`left_tests` / `right_tests`). -/
def testNames (dfs : List Df) : Finset String :=
  (dfs.flatMap (fun df => (firstColumn df).filter (fun s => pyContains s '.'))).toFinset

/-- `same_count = len(left_tests & right_tests)`. -/
def sameTestNames (ldfs rdfs : List Df) : Nat :=
  ((testNames ldfs) ∩ (testNames rdfs)).card

/-- `diff_count = len(left_tests ^ right_tests)`: Python `^` on sets is the
symmetric difference, `(L - R) | (R - L)`. -/
def divergentTestNames (ldfs rdfs : List Df) : Nat :=
  (((testNames ldfs) \ (testNames rdfs)) ∪ ((testNames rdfs) \ (testNames ldfs))).card

/-- C1: the corpus-level test-name statistics are set operations over the
union of rows: each side's set contains exactly the first-column values that
contain a `.`, `sameTestNames` is the cardinality of the intersection,
`divergentTestNames` the cardinality of the symmetric difference, and both
are symmetric under swapping left and right. -/
theorem C1_testname_stats (ldfs rdfs : List Df) :
    (∀ s : String,
      s ∈ testNames ldfs ↔
        (∃ df ∈ ldfs, ∃ row ∈ df, row.1 = s) ∧ pyContains s '.' = true) ∧
    sameTestNames ldfs rdfs = ((testNames ldfs) ∩ (testNames rdfs)).card ∧
    divergentTestNames ldfs rdfs = (symmDiff (testNames ldfs) (testNames rdfs)).card ∧
    sameTestNames ldfs rdfs = sameTestNames rdfs ldfs ∧
    divergentTestNames ldfs rdfs = divergentTestNames rdfs ldfs := by
  refine ⟨?_, rfl, ?_, ?_, ?_⟩
  · intro s
    simp only [testNames, List.mem_toFinset, List.mem_flatMap, List.mem_filter,
      firstColumn, List.mem_map]
    constructor
    · rintro ⟨df, hdf, ⟨⟨row, hrow, hval⟩, hdot⟩⟩
      exact ⟨⟨df, hdf, row, hrow, hval⟩, hdot⟩
    · rintro ⟨⟨df, hdf, row, hrow, hval⟩, hdot⟩
      exact ⟨df, hdf, ⟨⟨row, hrow, hval⟩, hdot⟩⟩
  · rw [divergentTestNames, symmDiff_def]
    rfl
  · rw [sameTestNames, sameTestNames, Finset.inter_comm]
  · rw [divergentTestNames, divergentTestNames, Finset.union_comm]

/-! ### Python `str.replace` and `str.strip`
used by the module-name normalization in generate_report, lines 274-279:

```python
cleaned = name.replace('armeabi-v7a ', '').replace('armeabi-v7a ', '').strip()
```

`pyReplace` scans left to right and replaces non-overlapping occurrences,
exactly like `str.replace`; the fuel argument (instantiated with the length
of the string, an upper bound on the number of steps) only makes the
recursion structural, the semantics for a nonempty pattern are exact.
-/

def pyReplaceFuel (pat rep : List Char) : Nat → List Char → List Char
  | _, [] => []
  | 0, s => s
  | fuel + 1, c :: rest =>
    if pat.isPrefixOf (c :: rest) then
      rep ++ pyReplaceFuel pat rep fuel ((c :: rest).drop pat.length)
    else
      c :: pyReplaceFuel pat rep fuel rest

/-- Python `s.replace(pat, rep)` for a nonempty pattern. -/
def pyReplace (pat rep s : List Char) : List Char :=
  pyReplaceFuel pat rep s.length s

/-- Whether `pat` occurs as a contiguous sublist of `s`. -/
def occursIn (pat : List Char) : List Char → Bool
  | [] => decide (pat = [])
  | c :: rest => pat.isPrefixOf (c :: rest) || occursIn pat rest

/-- Python whitespace stripped by `str.strip()`, including the no-break
space (modelled for the characters relevant to the source). -/
def isPySpace (c : Char) : Bool :=
  c = ' ' || c = '\t' || c = '\n' || c = '\r' ||
  c = '\x0b' || c = '\x0c' || c = '\u00A0'

def stripLeft (l : List Char) : List Char := l.dropWhile isPySpace

def stripRight (l : List Char) : List Char :=
  (l.reverse.dropWhile isPySpace).reverse

/-- Python `s.strip()`. -/
def pyStrip (l : List Char) : List Char := stripRight (stripLeft l)

/-- The module-name normalization of generate_report: strip the two ABI
prefix tokens (architecture label followed by a space / no-break space),
then trim surrounding whitespace. -/
def normalizeModule (s : String) : String :=
  String.mk (pyStrip (pyReplace ("armeabi-v7a\u00A0".data) []
    (pyReplace ("armeabi-v7a ".data) [] s.data)))

/-- If the pattern does not occur in the string, `pyReplaceFuel` is the
identity, for every amount of fuel. -/
theorem pyReplaceFuel_of_not_occursIn (pat rep : List Char) (fuel : Nat)
    (s : List Char) (h : occursIn pat s = false) :
    pyReplaceFuel pat rep fuel s = s := by
  induction fuel generalizing s with
  | zero => cases s <;> rfl
  | succ fuel ih =>
    cases s with
    | nil => rfl
    | cons c rest =>
      rw [occursIn, Bool.or_eq_false_iff] at h
      rw [pyReplaceFuel, if_neg (by simp [h.1]), ih rest h.2]

/-- If the pattern does not occur in the string, `pyReplace` is the
identity. -/
theorem pyReplace_of_not_occursIn (pat rep s : List Char)
    (h : occursIn pat s = false) : pyReplace pat rep s = s :=
  pyReplaceFuel_of_not_occursIn pat rep s.length s h

theorem dropWhile_idem (p : α → Bool) (l : List α) :
    (l.dropWhile p).dropWhile p = l.dropWhile p := by
  induction l with
  | nil => rfl
  | cons a t ih =>
    by_cases h : p a <;> simp [List.dropWhile_cons, h, ih]

theorem stripRight_idem (l : List Char) :
    stripRight (stripRight l) = stripRight l := by
  simp [stripRight, List.reverse_reverse, dropWhile_idem]

/-- The head of `dropWhile p l`, if any, does not satisfy `p`. -/
theorem head?_dropWhile (p : α → Bool) (l : List α) :
    ∀ a ∈ (l.dropWhile p).head?, p a = false := by
  induction l with
  | nil => intro a ha; simp at ha
  | cons b t ih =>
    intro a ha
    by_cases h : p b
    · rw [List.dropWhile_cons, if_pos h] at ha
      exact ih a ha
    · rw [List.dropWhile_cons, if_neg h] at ha
      simp at ha
      cases hpb : p b with
      | false => exact ha ▸ hpb
      | true => exact absurd hpb h

/-- `dropWhile` does nothing when the head does not satisfy the predicate. -/
theorem dropWhile_of_head (p : α → Bool) (l : List α)
    (h : ∀ a ∈ l.head?, p a = false) : l.dropWhile p = l := by
  cases l with
  | nil => rfl
  | cons a t =>
    have : p a = false := h a (by simp)
    simp [List.dropWhile_cons, this]

/-- `stripRight l` is a prefix of `l`. -/
theorem stripRight_isPrefix (l : List Char) : stripRight l <+: l := by
  rw [stripRight, ← List.reverse_suffix]
  simp only [List.reverse_reverse]
  exact List.dropWhile_suffix _

/-- Stripping from the left after stripping from the right does nothing if
the head already survived a left strip. -/
theorem stripLeft_stripRight_stripLeft (l : List Char) :
    stripLeft (stripRight (stripLeft l)) = stripRight (stripLeft l) := by
  apply dropWhile_of_head
  intro a ha
  rcases stripRight_isPrefix (stripLeft l) with ⟨u, hu⟩
  have hne : stripRight (stripLeft l) ≠ [] := by
    intro hnil
    rw [hnil] at ha
    simp at ha
  have : (stripLeft l).head? = some a := by
    rw [← hu]
    cases hsr : stripRight (stripLeft l) with
    | nil => exact absurd hsr hne
    | cons b t =>
      rw [hsr] at ha
      simp at ha
      simp [hsr, List.head?_cons, ha]
  exact head?_dropWhile isPySpace l a this

/-- Python `strip` is idempotent. -/
theorem pyStrip_idem (l : List Char) : pyStrip (pyStrip l) = pyStrip l := by
  rw [pyStrip, pyStrip, stripLeft_stripRight_stripLeft, stripRight_idem]

/-! ### Module statistics (generate_report, lines 256-280)

```python
left_modules = {str(df.iloc[0,0]) for df in left_dfs}
right_modules = {str(df.iloc[0,0]) for df in right_dfs}
same_modules = len(left_modules & right_modules)
degrade_modules = len(left_modules ^ right_modules)
...
degrade_module_names = left_modules.symmetric_difference(right_modules)
cleaned_module_names = []
for name in degrade_module_names:
    cleaned = name.replace('armeabi-v7a ', '').replace('armeabi-v7a ', '').strip()
    cleaned_module_names.append(cleaned)
degrade_module_names = set(cleaned_module_names)
```

`df.iloc[0, 0]` raises `IndexError` on a DataFrame with no rows; the access
is modelled as an `Option` and threaded through the whole statistics
computation, which is `none` exactly when Python would raise.
-/

/-- `df.iloc[0, 0]`: the first cell of the first row, if any. -/
def iloc00 (df : Df) : Option String := df.head?.map (fun r => r.1)

/-- The loop collecting `str(df.iloc[0,0])` for every DataFrame; `none` as
soon as one DataFrame has no row. -/
def collectModules : List Df → Option (List String)
  | [] => some []
  | df :: rest =>
    match iloc00 df with
    | none => none
    | some m => (collectModules rest).map (fun l => m :: l)

/-- `left_modules` / `right_modules` as a Python set. -/
def moduleSet (dfs : List Df) : Option (Finset String) :=
  (collectModules dfs).map List.toFinset

/-- `(same_modules, degrade_modules)` exactly as generate_report computes
them: over the raw module names. -/
def moduleStats (ldfs rdfs : List Df) : Option (Nat × Nat) := do
  let lm ← moduleSet ldfs
  let rm ← moduleSet rdfs
  pure ((lm ∩ rm).card, ((lm \ rm) ∪ (rm \ lm)).card)

/-- The displayed set of degraded module names: the raw symmetric
difference, each element then normalized (`cleaned_module_names`). -/
def degradeModuleDisplay (ldfs rdfs : List Df) : Option (Finset String) := do
  let lm ← moduleSet ldfs
  let rm ← moduleSet rdfs
  pure (((lm \ rm) ∪ (rm \ lm)).image normalizeModule)

/-- Modelled from the spec's words, for contrast with `moduleStats` (this is
what C2 asserts, not what the source computes): module statistics over the
sets of module names normalized *before* the set comparison. -/
def moduleStatsSpecNormalized (ldfs rdfs : List Df) : Option (Nat × Nat) := do
  let lm ← moduleSet ldfs
  let rm ← moduleSet rdfs
  let lm := lm.image normalizeModule
  let rm := rm.image normalizeModule
  pure ((lm ∩ rm).card, ((lm \ rm) ∪ (rm \ lm)).card)

/-- C2 counterexample: a left table whose module name carries the ABI prefix
`armeabi-v7a ` and a right table with the same module name without it.  The
source counts them as two divergent modules (`same_modules = 0`,
`degrade_modules = 2`); under the claimed normalize-before-compare semantics
they would be one shared module (`1`, `0`).  The two names normalize to the
same string, yet the code reports them as divergent. -/
theorem C2_module_stats_counterexample :
    moduleStats [[("armeabi-v7a Foo", "", "")]] [[("Foo", "", "")]] =
      some (0, 2) ∧
    moduleStatsSpecNormalized [[("armeabi-v7a Foo", "", "")]] [[("Foo", "", "")]] =
      some (1, 0) ∧
    normalizeModule "armeabi-v7a Foo" = normalizeModule "Foo" ∧
    moduleStats [[("armeabi-v7a Foo", "", "")]] [[("Foo", "", "")]] ≠
      moduleStatsSpecNormalized [[("armeabi-v7a Foo", "", "")]] [[("Foo", "", "")]] := by
  refine ⟨by decide, by decide, by decide, by decide⟩

/-- C2 amended: the module statistics are computed over the *raw* module
names (first cell of each table) with no normalization; the ABI-prefix
stripping is applied only afterwards, to the displayed list of divergent
module names (the image of the raw symmetric difference under the
normalization). -/
theorem C2_module_stats_amended (ldfs rdfs : List Df) (lm rm : Finset String)
    (hl : moduleSet ldfs = some lm) (hr : moduleSet rdfs = some rm) :
    moduleStats ldfs rdfs = some ((lm ∩ rm).card, ((lm \ rm) ∪ (rm \ lm)).card) ∧
    degradeModuleDisplay ldfs rdfs =
      some (((lm \ rm) ∪ (rm \ lm)).image normalizeModule) := by
  constructor
  · rw [moduleStats, hl, hr]; rfl
  · rw [degradeModuleDisplay, hl, hr]; rfl

/-- Witness for C2's amended theorem at the counterexample tables. -/
theorem C2_module_stats_amended_witness :
    moduleSet [[("armeabi-v7a Foo", "", "")]] = some {"armeabi-v7a Foo"} ∧
    moduleSet [[("Foo", "", "")]] = some {"Foo"} ∧
    moduleStats [[("armeabi-v7a Foo", "", "")]] [[("Foo", "", "")]] =
      some (({"armeabi-v7a Foo"} ∩ ({"Foo"} : Finset String)).card,
        ((({"armeabi-v7a Foo"} : Finset String) \ {"Foo"}) ∪
          (({"Foo"} : Finset String) \ {"armeabi-v7a Foo"})).card) := by
  refine ⟨by decide, by decide,
    (C2_module_stats_amended [[("armeabi-v7a Foo", "", "")]] [[("Foo", "", "")]]
      {"armeabi-v7a Foo"} {"Foo"} (by decide) (by decide)).1⟩

/-- C8 counterexample: removing one occurrence of the ABI token can create a
new occurrence, so normalization is not idempotent.  Here
`normalizeModule "armeabi-v7armeabi-v7a a x" = "armeabi-v7a x"` while a
second application gives `"x"`. -/
theorem C8_normalize_not_idempotent_cex :
    normalizeModule "armeabi-v7armeabi-v7a a x" = "armeabi-v7a x" ∧
    normalizeModule (normalizeModule "armeabi-v7armeabi-v7a a x") = "x" ∧
    normalizeModule (normalizeModule "armeabi-v7armeabi-v7a a x") ≠
      normalizeModule "armeabi-v7armeabi-v7a a x" := by
  refine ⟨by decide, by decide, by decide⟩

/-- C8 amended: normalization is idempotent on every module name whose
once-normalized form contains no further occurrence of an ABI-prefix token
(the architecture label followed by a space or no-break space); the
counterexample shows the restriction is necessary, because one replacement
pass can splice a new occurrence together. -/
theorem C8_normalize_idempotent_amended (s : String)
    (h1 : occursIn ("armeabi-v7a ".data) (normalizeModule s).data = false)
    (h2 : occursIn ("armeabi-v7a\u00A0".data) (normalizeModule s).data = false) :
    normalizeModule (normalizeModule s) = normalizeModule s := by
  have hmk : ∀ l : List Char, (String.mk l).data = l := fun _ => rfl
  rw [normalizeModule, pyReplace_of_not_occursIn _ _ _ h1,
    pyReplace_of_not_occursIn _ _ _ h2]
  conv_rhs => rw [normalizeModule]
  rw [show (normalizeModule s).data =
      pyStrip (pyReplace ("armeabi-v7a\u00A0".data) []
        (pyReplace ("armeabi-v7a ".data) [] s.data)) from rfl,
    pyStrip_idem]

/-- Witness for C8's amended theorem: `"armeabi-v7a Foo"` normalizes to
`"Foo"`, which contains no ABI token, and a second normalization fixes it. -/
theorem C8_normalize_idempotent_amended_witness :
    occursIn ("armeabi-v7a ".data) (normalizeModule "armeabi-v7a Foo").data = false ∧
    occursIn ("armeabi-v7a\u00A0".data) (normalizeModule "armeabi-v7a Foo").data = false ∧
    normalizeModule (normalizeModule "armeabi-v7a Foo") =
      normalizeModule "armeabi-v7a Foo" :=
  ⟨by decide, by decide,
   C8_normalize_idempotent_amended "armeabi-v7a Foo" (by decide) (by decide)⟩

/-! ### `_make_table` and the statistics portion of `generate_report`
(src/diff_tool/html_report.py, lines 59-88 and 249-261)

`_make_table` guards the empty DataFrame (`if not rows`) and renders an
empty shell; the test-name sets iterate over whole columns and tolerate
empty DataFrames as well.  Only `df.iloc[0, 0]` in the module statistics is
unguarded, which `reportStats` reflects by being the only `Option`-valued
step. -/

def pyLower (s : String) : String := String.mk (s.data.map Char.toLower)

def pyUpper (s : String) : String := String.mk (s.data.map Char.toUpper)

def moduleRowTmpl (module : String) : String :=
  "<tr><th colspan=\"3\" class=\"module\" style=\"text-align:left;\">" ++
    module ++ "</th></tr>"

def tableHeaderHtml : String :=
  "<tr><th>Test</th><th>Result</th><th>Details</th></tr>"

/-- The `continue` condition of the row loop: an extra header row, or a test
cell that is empty after stripping. -/
def rowIsSkipped (r : Row) : Bool :=
  (r.1 = "Test" && r.2.1 = "Result" && r.2.2 = "Details") ||
    decide (pyStrip r.1.data = [])

/-- One `<tr>` of `_make_table`. -/
def rowHtml (r : Row) : String :=
  let colClass := if pyContains r.1 '.' then "testname" else "module"
  let testTd := "<td class=\"" ++ colClass ++ "\">" ++ r.1 ++ "</td>"
  if pyLower (String.mk (pyStrip r.2.1.data)) = "fail" then
    "<tr>" ++ testTd ++ "<td class=\"failed\">" ++ r.2.1 ++
      "</td><td class=\"failuredetails\">" ++ r.2.2 ++ "</td></tr>"
  else
    "<tr>" ++ testTd ++ "<td>" ++ r.2.1 ++ "</td><td>" ++ r.2.2 ++
      "</td></tr>"

/-- `_make_table`: total; an empty DataFrame renders as an empty shell. -/
def makeTable (df : Df) : String :=
  match df with
  | [] => "<table class='testdetails'></table>"
  | r0 :: rest =>
    let parts := [moduleRowTmpl r0.1, tableHeaderHtml] ++
      (rest.filter (fun r => !rowIsSkipped r)).map rowHtml
    "<table class='testdetails'>" ++ String.join parts ++ "</table>"

/-- The data generate_report computes before writing: test-name statistics,
module statistics and the rendered tables.  `none` exactly where Python
raises `IndexError` on `df.iloc[0, 0]`. -/
structure ReportStats where
  sameTests : Nat
  divergentTests : Nat
  sameModules : Nat
  divergentModules : Nat
  leftTables : List String
  rightTables : List String
deriving DecidableEq

def reportStats (ldfs rdfs : List Df) : Option ReportStats := do
  let lm ← moduleSet ldfs
  let rm ← moduleSet rdfs
  pure { sameTests := sameTestNames ldfs rdfs,
         divergentTests := divergentTestNames ldfs rdfs,
         sameModules := (lm ∩ rm).card,
         divergentModules := ((lm \ rm) ∪ (rm \ lm)).card,
         leftTables := ldfs.map makeTable,
         rightTables := rdfs.map makeTable }

/-- The module-collection loop fails exactly on an empty DataFrame. -/
theorem collectModules_eq_none (dfs : List Df) :
    collectModules dfs = none ↔ ∃ df ∈ dfs, df = [] := by
  induction dfs with
  | nil => simp [collectModules]
  | cons df rest ih =>
    cases df with
    | nil => simp [collectModules, iloc00]
    | cons r rs =>
      simp [collectModules, iloc00, ih]

theorem moduleSet_eq_none (dfs : List Df) :
    moduleSet dfs = none ↔ ∃ df ∈ dfs, df = [] := by
  rw [moduleSet, Option.map_eq_none', collectModules_eq_none]

/-- C10: `generate_report` reads `df.iloc[0, 0]` of every DataFrame for the
module statistics with no emptiness guard.  If every supplied DataFrame has
at least one row the computation completes; it fails exactly when some
DataFrame is empty, and that access is the sole partial step - the table
renderer itself guards the empty DataFrame and produces an empty shell. -/
theorem C10_iloc_access (ldfs rdfs : List Df) :
    ((∀ df ∈ ldfs ++ rdfs, df ≠ []) → ∃ v, reportStats ldfs rdfs = some v) ∧
    (reportStats ldfs rdfs = none ↔ ∃ df ∈ ldfs ++ rdfs, df = []) ∧
    makeTable [] = "<table class='testdetails'></table>" := by
  have hnone : reportStats ldfs rdfs = none ↔ ∃ df ∈ ldfs ++ rdfs, df = [] := by
    rw [reportStats]
    cases hl : moduleSet ldfs with
    | none =>
      rw [moduleSet_eq_none] at hl
      obtain ⟨df, hdf, hdfnil⟩ := hl
      simp only [Option.bind_eq_bind, Option.none_bind, List.mem_append]
      exact ⟨fun _ => ⟨df, Or.inl hdf, hdfnil⟩, fun _ => trivial⟩
    | some lm =>
      cases hr : moduleSet rdfs with
      | none =>
        rw [moduleSet_eq_none] at hr
        obtain ⟨df, hdf, hdfnil⟩ := hr
        simp only [Option.bind_eq_bind, Option.some_bind, Option.none_bind,
          List.mem_append]
        exact ⟨fun _ => ⟨df, Or.inr hdf, hdfnil⟩, fun _ => trivial⟩
      | some rm =>
        simp only [Option.bind_eq_bind, Option.some_bind, List.mem_append]
        constructor
        · intro h
          simp at h
        · rintro ⟨df, hdf | hdf, hdfnil⟩
          · exact absurd ((moduleSet_eq_none ldfs).mpr ⟨df, hdf, hdfnil⟩)
              (by rw [hl]; simp)
          · exact absurd ((moduleSet_eq_none rdfs).mpr ⟨df, hdf, hdfnil⟩)
              (by rw [hr]; simp)
  refine ⟨?_, hnone, rfl⟩
  intro h
  cases hv : reportStats ldfs rdfs with
  | none =>
    obtain ⟨df, hdf, hdfnil⟩ := hnone.mp hv
    exact absurd hdfnil (h df hdf)
  | some v => exact ⟨v, rfl⟩

/-- Witness for C10 with one nonempty DataFrame on each side. -/
theorem C10_iloc_access_witness :
    (∀ df ∈ ([[("Mod", "", "")]] : List Df) ++ [[("Mod", "Pass", "x")]], df ≠ []) ∧
    ∃ v, reportStats [[("Mod", "", "")]] [[("Mod", "Pass", "x")]] = some v :=
  ⟨by decide,
   (C10_iloc_access [[("Mod", "", "")]] [[("Mod", "Pass", "x")]]).1 (by decide)⟩

/-! ### `_sub_variants` (src/summary_tool/cli.py, lines 33-50)

```python
variants = {name, name.lower(), name.upper(), name.title()}
if "_" in name:
    no_us = name.replace("_", "")
    variants.update({no_us, no_us.lower(), no_us.upper(), no_us.title()})
else:
    with_us = name + "_"
    variants.update({with_us, with_us.lower(), with_us.upper(), with_us.title()})
return [v for v in variants if v]
```

Python's set has no stable order, so the result is modelled as the
underlying `Finset`; the final comprehension filters out empty strings.
`title()` is modelled for ASCII: an alphabetic character is uppercased when
the previous character is not alphabetic, lowercased otherwise. -/

def pyTitleAux : Bool → List Char → List Char
  | _, [] => []
  | prev, c :: cs =>
    (if c.isAlpha then (if prev then c.toLower else c.toUpper) else c) ::
      pyTitleAux c.isAlpha cs

def pyTitle (s : String) : String := String.mk (pyTitleAux false s.data)

/-- Python `name.replace("_", "")`. -/
def removeUnderscores (s : String) : String :=
  String.mk (s.data.filter (fun c => c ≠ '_'))

def subVariants (name : String) : Finset String :=
  (((if pyContains name '_' then
      [name, pyLower name, pyUpper name, pyTitle name,
       removeUnderscores name, pyLower (removeUnderscores name),
       pyUpper (removeUnderscores name), pyTitle (removeUnderscores name)]
    else
      [name, pyLower name, pyUpper name, pyTitle name,
       name ++ "_", pyLower (name ++ "_"),
       pyUpper (name ++ "_"), pyTitle (name ++ "_")])).filter
      (fun v => v ≠ "")).toFinset

/-- C7 counterexample: for the name `"_"` (which contains an underscore) the
underscore-removed form is the empty string, which the final filter removes,
so the produced set does not include it. -/
theorem C7_sub_variants_counterexample :
    pyContains "_" '_' = true ∧
    removeUnderscores "_" = "" ∧
    removeUnderscores "_" ∉ subVariants "_" := by
  refine ⟨by decide, by decide, by decide⟩

/-- C7 amended: for every subdirectory name containing an underscore the
variant set includes the original name, its lower-case and upper-case forms
and - provided it is nonempty - the form with underscores removed; for every
name without an underscore it additionally includes the underscore-appended
form. -/
theorem C7_sub_variants_amended (name : String) :
    (pyContains name '_' = true →
      name ∈ subVariants name ∧
      pyLower name ∈ subVariants name ∧
      pyUpper name ∈ subVariants name ∧
      (removeUnderscores name ≠ "" → removeUnderscores name ∈ subVariants name)) ∧
    (pyContains name '_' = false → (name ++ "_") ∈ subVariants name) := by
  constructor
  · intro h
    have hne : name ≠ "" := by
      intro hnil
      rw [hnil] at h
      exact absurd h (by decide)
    refine ⟨?_, ?_, ?_, ?_⟩
    · simp [subVariants, h, List.mem_filter, hne]
    · have : pyLower name ≠ "" := by
        intro hl
        apply hne
        have := congrArg String.data hl
        simp only [pyLower] at this
        cases hd : name.data with
        | nil => exact String.ext hd
        | cons c cs => rw [hd] at this; exact absurd this (by simp)
      simp [subVariants, h, List.mem_filter, this]
    · have : pyUpper name ≠ "" := by
        intro hl
        apply hne
        have := congrArg String.data hl
        simp only [pyUpper] at this
        cases hd : name.data with
        | nil => exact String.ext hd
        | cons c cs => rw [hd] at this; exact absurd this (by simp)
      simp [subVariants, h, List.mem_filter, this]
    · intro hnus
      simp [subVariants, h, List.mem_filter, hnus]
  · intro h
    have : name ++ "_" ≠ "" := by
      intro hl
      have := congrArg String.data hl
      rw [String.data_append] at this
      simp at this
    simp [subVariants, h, List.mem_filter, this]

/-- Witness for C7's amended theorem on the default subdirectory names
`"tv_ts"` (with underscore) and `"cts"` (without). -/
theorem C7_sub_variants_amended_witness :
    (pyContains "tv_ts" '_' = true ∧
      ("tv_ts" : String) ∈ subVariants "tv_ts" ∧
      removeUnderscores "tv_ts" ≠ "" ∧
      removeUnderscores "tv_ts" ∈ subVariants "tv_ts") ∧
    (pyContains "cts" '_' = false ∧
      ("cts" : String) ++ "_" ∈ subVariants "cts") := by
  have h1 := (C7_sub_variants_amended "tv_ts").1 (by decide)
  have h2 := (C7_sub_variants_amended "cts").2 (by decide)
  exact ⟨⟨by decide, h1.1, by decide, h1.2.2.2 (by decide)⟩, by decide, h2⟩


/-! ### Positional pairing of tables
(src/summary_tool/cli.py, lines 538-548; src/diff_tool/cli.py, lines 183-193)

```python
left_dfs, right_dfs, diffs = [], [], []
for lt, rt in zip(left_tables, right_tables):
    left_df, right_df, diff_df = compare_tables(lt, rt)
    left_dfs.append(left_df); right_dfs.append(right_df); diffs.append(diff_df)
if len(left_tables) > len(right_tables):
    left_dfs.extend(_table_to_df(t) for t in left_tables[len(right_tables):])
elif len(right_tables) > len(left_tables):
    right_dfs.extend(_table_to_df(t) for t in right_tables[len(left_tables):])
```

`compare_tables` and `_table_to_df` live in the `comparer` module, which is
not among the sources under review; the pairing loop is therefore proved for
arbitrary functions `cmp` and `conv` in their place. -/

def pairTables {T D : Type} (cmp : T → T → D × D × D) (conv : T → D)
    (ls rs : List T) : List D × List D × List D :=
  let zipped := (List.zip ls rs).map (fun p => cmp p.1 p.2)
  let ldfs := zipped.map (fun t => t.1)
  let rdfs := zipped.map (fun t => t.2.1)
  let diffs := zipped.map (fun t => t.2.2)
  let ldfs := if rs.length < ls.length then ldfs ++ (ls.drop rs.length).map conv else ldfs
  let rdfs := if ls.length < rs.length then rdfs ++ (rs.drop ls.length).map conv else rdfs
  (ldfs, rdfs, diffs)

theorem pairTables_zip_part {T D : Type} (cmp : T → T → D × D × D)
    (conv : T → D) (ls rs : List T) (i : Nat)
    (hi : i < min ls.length rs.length) :
    (pairTables cmp conv ls rs).1[i]? =
      ((ls.zip rs)[i]?).map (fun p => (cmp p.1 p.2).1) ∧
    (pairTables cmp conv ls rs).2.1[i]? =
      ((ls.zip rs)[i]?).map (fun p => (cmp p.1 p.2).2.1) ∧
    (pairTables cmp conv ls rs).2.2[i]? =
      ((ls.zip rs)[i]?).map (fun p => (cmp p.1 p.2).2.2) := by
  have hzlen : (ls.zip rs).length = min ls.length rs.length := by simp
  have hi1 : i < (((ls.zip rs).map (fun p => cmp p.1 p.2)).map
      (fun t : D × D × D => t.1)).length := by simp; omega
  have hi2 : i < (((ls.zip rs).map (fun p => cmp p.1 p.2)).map
      (fun t : D × D × D => t.2.1)).length := by simp; omega
  refine ⟨?_, ?_, ?_⟩
  · show (if rs.length < ls.length then _ else _)[i]? = _
    by_cases h : rs.length < ls.length
    · rw [if_pos h, List.getElem?_append_left hi1]
      simp only [List.getElem?_map]
      cases (ls.zip rs)[i]? <;> rfl
    · rw [if_neg h]
      simp only [List.getElem?_map]
      cases (ls.zip rs)[i]? <;> rfl
  · show (if ls.length < rs.length then _ else _)[i]? = _
    by_cases h : ls.length < rs.length
    · rw [if_pos h, List.getElem?_append_left hi2]
      simp only [List.getElem?_map]
      cases (ls.zip rs)[i]? <;> rfl
    · rw [if_neg h]
      simp only [List.getElem?_map]
      cases (ls.zip rs)[i]? <;> rfl
  · show (((ls.zip rs).map (fun p => cmp p.1 p.2)).map
      (fun t : D × D × D => t.2.2))[i]? = _
    simp only [List.getElem?_map]
    cases (ls.zip rs)[i]? <;> rfl

theorem pairTables_extra_part {T D : Type} (cmp : T → T → D × D × D)
    (conv : T → D) (ls rs : List T) (i : Nat)
    (hi : min ls.length rs.length ≤ i) :
    (pairTables cmp conv ls rs).1[i]? = (ls[i]?).map conv ∧
    (pairTables cmp conv ls rs).2.1[i]? = (rs[i]?).map conv := by
  constructor
  · show (if rs.length < ls.length then _ else _)[i]? = _
    by_cases h : rs.length < ls.length
    · rw [if_pos h,
        List.getElem?_append_right (by simp; omega),
        List.getElem?_map, List.getElem?_drop]
      have heq : rs.length + (i - (min ls.length rs.length)) = i := by omega
      rw [show i - (((ls.zip rs).map (fun p => cmp p.1 p.2)).map
        (fun t : D × D × D => t.1)).length = i - (min ls.length rs.length) by simp,
        heq]
    · rw [if_neg h, List.getElem?_eq_none (by simp; omega),
        List.getElem?_eq_none (l := ls) (by omega)]
      rfl
  · show (if ls.length < rs.length then _ else _)[i]? = _
    by_cases h : ls.length < rs.length
    · rw [if_pos h,
        List.getElem?_append_right (by simp; omega),
        List.getElem?_map, List.getElem?_drop]
      have heq : ls.length + (i - (min ls.length rs.length)) = i := by omega
      rw [show i - (((ls.zip rs).map (fun p => cmp p.1 p.2)).map
        (fun t : D × D × D => t.2.1)).length = i - (min ls.length rs.length) by simp,
        heq]
    · rw [if_neg h, List.getElem?_eq_none (by simp; omega),
        List.getElem?_eq_none (l := rs) (by omega)]
      rfl

/-- C3: the comparator pairs tables positionally - entry `i` below the
shorter length is built by comparing the `i`-th left table with the `i`-th
right table - while every table at an index beyond the shorter length
appears in the output converted but with no diff computed (the diff list
stops at the shorter length), and no table of either side is dropped (the
output lists have exactly the input lengths). -/
theorem C3_positional_pairing {T D : Type} (cmp : T → T → D × D × D)
    (conv : T → D) (ls rs : List T) :
    (pairTables cmp conv ls rs).1.length = ls.length ∧
    (pairTables cmp conv ls rs).2.1.length = rs.length ∧
    (pairTables cmp conv ls rs).2.2.length = min ls.length rs.length ∧
    (∀ i : Nat, i < min ls.length rs.length →
      (pairTables cmp conv ls rs).1[i]? =
        ((ls.zip rs)[i]?).map (fun p => (cmp p.1 p.2).1) ∧
      (pairTables cmp conv ls rs).2.1[i]? =
        ((ls.zip rs)[i]?).map (fun p => (cmp p.1 p.2).2.1) ∧
      (pairTables cmp conv ls rs).2.2[i]? =
        ((ls.zip rs)[i]?).map (fun p => (cmp p.1 p.2).2.2)) ∧
    (∀ i : Nat, min ls.length rs.length ≤ i →
      (pairTables cmp conv ls rs).1[i]? = (ls[i]?).map conv ∧
      (pairTables cmp conv ls rs).2.1[i]? = (rs[i]?).map conv) := by
  refine ⟨?_, ?_, ?_, pairTables_zip_part cmp conv ls rs,
    pairTables_extra_part cmp conv ls rs⟩
  · rw [pairTables]
    by_cases h : rs.length < ls.length <;> simp [h] <;> omega
  · rw [pairTables]
    by_cases h : ls.length < rs.length <;> simp [h] <;> omega
  · rw [pairTables]
    simp

/-- Witness for C3 with two left tables and one right table over `Nat`
payloads: index 0 is compared positionally, index 1 is carried through
converted, and exactly one diff entry is produced. -/
theorem C3_positional_pairing_witness :
    (pairTables (fun a b => (a + b, a * b, a - b)) (fun a => a + 100)
      [3, 5] [7]).1[0]? = some 10 ∧
    (pairTables (fun a b => (a + b, a * b, a - b)) (fun a => a + 100)
      [3, 5] [7]).1[1]? = some 105 ∧
    (pairTables (fun a b => (a + b, a * b, a - b)) (fun a => a + 100)
      [3, 5] [7]).2.2.length = 1 := by
  have h := C3_positional_pairing (fun a b : Nat => (a + b, a * b, a - b))
    (fun a => a + 100) [3, 5] [7]
  refine ⟨?_, ?_, h.2.2.1⟩
  · rw [(h.2.2.2.1 0 (by decide)).1]
    decide
  · rw [(h.2.2.2.2 1 (by decide)).1]
    decide

/-! ### The location resolver
(`_resolve`/`_search`: src/summary_tool/cli.py lines 343-424 and
src/diff_tool/cli.py lines 82-150; the two `_search` helpers are
line-for-line identical, so one embedding serves both)

External effects are supplied by an environment: `headOk u` is a HEAD
request answering status 200, `pageText u` a GET returning the page body
(`none` when the request raises or `raise_for_status` fires), `links t` the
anchor hrefs BeautifulSoup extracts from a body, and `isDir`/`isFile`/
`rglobSuite`/`rglobHtml` the filesystem probes (`rglobSuite root` lists the
`test_result_failures_suite.html` hits of `root.rglob`, `rglobHtml root` the
`*.html` hits, both in walk order). -/

structure Env where
  headOk : String → Bool
  pageText : String → Option String
  links : String → List String
  isDir : String → Bool
  isFile : String → Bool
  rglobSuite : String → List String
  rglobHtml : String → List String

def pyStartsWith (s pre : String) : Bool := pre.data.isPrefixOf s.data

def pyEndsWith (s suf : String) : Bool := suf.data.isSuffixOf s.data

/-- Python `url.rstrip('/')`. -/
def rstripSlash (s : String) : String :=
  String.mk ((s.data.reverse.dropWhile (fun c => c = '/')).reverse)

/-- Python `href.lstrip('/')`. -/
def lstripSlash (s : String) : String :=
  String.mk (s.data.dropWhile (fun c => c = '/'))

/-- `href if href.startswith('http') else url.rstrip('/') + '/' + href.lstrip('/')`. -/
def absolutize (url href : String) : String :=
  if pyStartsWith href "http" then href
  else rstripSlash url ++ "/" ++ lstripSlash href

/-- `_search(url, depth)`: the fuel argument is `4 - depth`, so the
depth-bound `if depth > 3: return None` is the fuel-0 case.  The body
follows the source: canonical-filename HEAD probe first; otherwise fetch the
listing; return on the *first* `.html` link (fetching it and testing for the
`testdetails` marker, though both branches return the same URL); only when
the listing has no `.html` link, recurse into the directory-like links in
order, returning the first success. -/
def search (env : Env) : Nat → String → Option String
  | 0, _ => none
  | fuel + 1, url =>
    let cand := rstripSlash url ++ "/test_result_failures_suite.html"
    if env.headOk cand then some cand
    else
      match env.pageText url with
      | none => none
      | some text =>
        match (env.links text).find? (fun h => pyEndsWith (pyLower h) ".html") with
        | some href =>
          let fullUrl := absolutize url href
          match env.pageText fullUrl with
          | some body =>
            if occursIn ("testdetails".data) body.data then some fullUrl
            else some (absolutize url href)
          | none => some (absolutize url href)
        | none =>
          ((env.links text).filter (fun h => pyEndsWith h "/")).foldl
            (fun acc h =>
              match acc with
              | some r => some r
              | none => search env fuel (absolutize url h)) none

/-- `_resolve` of src/summary_tool/cli.py: URL branch searches when the URL
ends in a slash, local branch walks the directory (inside `subdir` when
given), and every failure path returns the input unchanged. -/
def resolve (env : Env) (arg : String) (subdir : String) : String :=
  if pyStartsWith arg "http://" || pyStartsWith arg "https://" then
    if pyEndsWith arg "/" then
      match search env 4 arg with
      | some u => u
      | none => arg
    else arg
  else if env.isDir arg then
    let searchRoot := if subdir ≠ "" then arg ++ "/" ++ subdir else arg
    match (env.rglobSuite searchRoot).find? (fun f => env.isFile f) with
    | some f => f
    | none =>
      match (env.rglobHtml searchRoot).find? (fun f => env.isFile f) with
      | some f => f
      | none => arg
  else arg

/-- `_resolve` of src/diff_tool/cli.py.  Its local-directory branch reads
`args.subdir`, but the parser only defines `args.subdirs` (from
the subdirs option), so Python raises `AttributeError` there; the branch is
modelled as `Except.error`.  The URL branch is identical to the
summary-tool resolver. -/
def resolveDiffTool (env : Env) (arg : String) : Except String String :=
  if pyStartsWith arg "http://" || pyStartsWith arg "https://" then
    if pyEndsWith arg "/" then
      match search env 4 arg with
      | some u => Except.ok u
      | none => Except.ok arg
    else Except.ok arg
  else if env.isDir arg then
    Except.error "AttributeError: Namespace object has no attribute subdir"
  else Except.ok arg

/-- An environment where `left/cts` is an existing local directory and every
probe fails: no remote document, no file anywhere. -/
def envLocalDirOnly : Env :=
  { headOk := fun _ => false, pageText := fun _ => none, links := fun _ => [],
    isDir := fun p => p = "left/cts", isFile := fun _ => false,
    rglobSuite := fun _ => [], rglobHtml := fun _ => [] }

/-- C4: the diff-tool resolver *does* raise.  On the failing input
`"left/cts"` (an existing local directory, exactly the path the per-subdir
loop feeds it), `_resolve` reads the undefined attribute `args.subdir` and
Python raises `AttributeError` instead of returning the input unchanged.
The parallel summary-tool resolver - which takes the subdirectory as a
parameter - returns the input unchanged on the same total-failure
environment, in both its local and its URL branch, showing the intended
policy the slip violates. -/
theorem C4_resolve_raises_on_local_dir :
    resolveDiffTool envLocalDirOnly "left/cts" =
      Except.error "AttributeError: Namespace object has no attribute subdir" ∧
    resolve envLocalDirOnly "left/cts" "cts" = "left/cts" ∧
    resolve envLocalDirOnly "http://host/results/" "cts" = "http://host/results/" ∧
    resolve envLocalDirOnly "plain/path" "" = "plain/path" := by
  refine ⟨by rfl, by decide, by decide, by decide⟩

/-- Directory listing with a non-testdetails `.html` link before a
testdetails-containing `.html` link. -/
def envTwoHtmlLinks : Env :=
  { headOk := fun _ => false,
    pageText := fun u =>
      if u = "http://host/dir/" then some "LISTING"
      else if u = "http://host/dir/other.html" then some "<html>no marker</html>"
      else if u = "http://host/dir/details.html" then some "<html>testdetails</html>"
      else none,
    links := fun t => if t = "LISTING" then ["other.html", "details.html"] else [],
    isDir := fun _ => false, isFile := fun _ => false,
    rglobSuite := fun _ => [], rglobHtml := fun _ => [] }

/-- C5 counterexample: the canonical probe fails and the listing links
`other.html` (body without the marker) before `details.html` (body with the
marker); the search resolves to `other.html`, not to the
testdetails-containing document the claim prefers. -/
theorem C5_search_counterexample :
    occursIn ("testdetails".data) ("<html>no marker</html>" : String).data = false ∧
    occursIn ("testdetails".data) ("<html>testdetails</html>" : String).data = true ∧
    search envTwoHtmlLinks 4 "http://host/dir/" = some "http://host/dir/other.html" ∧
    search envTwoHtmlLinks 4 "http://host/dir/" ≠ some "http://host/dir/details.html" := by
  refine ⟨by decide, by decide, by decide, by decide⟩

/-- C5 amended: when the canonical-filename probe fails and the directory
listing is fetched, the resolver returns the absolutized *first* `.html`
link of the listing, whether or not any fetched body contains the
"testdetails" marker (the marker is only ever tested on that first link and
both outcomes return the same URL); recursion into directory-like links,
depth-bounded at 3, happens only when the listing contains no `.html` link
at all. -/
theorem C5_search_returns_first_html (env : Env) (fuel : Nat)
    (url text href : String)
    (hhead : env.headOk (rstripSlash url ++ "/test_result_failures_suite.html") = false)
    (hget : env.pageText url = some text)
    (hfind : (env.links text).find? (fun h => pyEndsWith (pyLower h) ".html") =
      some href) :
    search env (fuel + 1) url = some (absolutize url href) := by
  rw [search]
  simp only [hhead, Bool.false_eq_true, if_false, hget, hfind]
  cases henv : env.pageText (absolutize url href) with
  | none => rfl
  | some body => by_cases hb : occursIn ("testdetails".data) body.data <;> simp [hb]

/-- Witness for C5's amended theorem on the two-link environment. -/
theorem C5_search_returns_first_html_witness :
    search envTwoHtmlLinks 4 "http://host/dir/" =
      some (absolutize "http://host/dir/" "other.html") :=
  C5_search_returns_first_html envTwoHtmlLinks 3 "http://host/dir/" "LISTING"
    "other.html" (by decide) (by decide) (by decide)

/-! ### The destination-write fallback of `generate_report`
(src/diff_tool/html_report.py, lines 328-342)

```python
final_path = output_path
try:
    output_path.write_text("\n".join(parts), encoding="utf-8")
except PermissionError:
    fallback_dir = Path(tempfile.gettempdir()) / "diff_output"
    fallback_dir.mkdir(parents=True, exist_ok=True)
    fallback_path = fallback_dir / f"{output_path.stem}.html"
    logging.warning("Permission denied writing to %s; writing to %s instead.", ...)
    fallback_path.write_text("\n".join(parts), encoding="utf-8")
    final_path = fallback_path
return final_path
```

`pyStem` models `pathlib.PurePath.stem`: the last path component, without
its final suffix when the last dot is neither the component's first nor its
last character. -/

/-- Index of the first `.` of a character list (used on reversed names, so
it finds the *last* dot of the original). -/
def revDotIdx : List Char → Option Nat
  | [] => none
  | c :: rest => if c = '.' then some 0 else (revDotIdx rest).map (fun j => j + 1)

/-- `pathlib` stem of one path component. -/
def pyStemName (name : List Char) : List Char :=
  match revDotIdx name.reverse with
  | none => name
  | some j =>
    if 0 < name.length - 1 - j ∧ name.length - 1 - j < name.length - 1 then
      name.take (name.length - 1 - j)
    else name

/-- `Path(path).stem`. -/
def pyStem (path : String) : String :=
  String.mk (pyStemName ((pySplit '/' path.data).getLastD []))

structure WriteEnv where
  primaryOk : Bool
  tempDir : String

structure WriteOutcome where
  finalPath : String
  writes : List (String × String)
  warned : Bool
deriving DecidableEq

/-- The write step at the end of `generate_report`.  `primaryOk` tells
whether writing `output_path` succeeds (`false` = `PermissionError`);
`writes` records the successful writes; the fallback write is unguarded in
the source and modelled as succeeding. -/
def writeReport (env : WriteEnv) (outputPath content : String) : WriteOutcome :=
  if env.primaryOk then
    { finalPath := outputPath, writes := [(outputPath, content)], warned := false }
  else
    { finalPath := env.tempDir ++ "/diff_output/" ++ pyStem outputPath ++ ".html",
      writes := [(env.tempDir ++ "/diff_output/" ++ pyStem outputPath ++ ".html",
        content)],
      warned := true }

theorem pySplit_ne_nil (sep : Char) (s : List Char) : pySplit sep s ≠ [] := by
  cases s with
  | nil => simp [pySplit]
  | cons c rest => by_cases h : c = sep <;> simp [pySplit, h]

theorem pySplit_no_sep (sep : Char) (l : List Char) (h : sep ∉ l) :
    pySplit sep l = [l] := by
  induction l with
  | nil => rfl
  | cons c rest ih =>
    have hc : ¬ c = sep := fun he => h (he ▸ List.mem_cons_self c rest)
    have hr : sep ∉ rest := fun hm => h (List.mem_cons_of_mem c hm)
    simp [pySplit, hc, ih hr]

theorem pySplit_append_sep_length (sep : Char) (xs ys : List Char) :
    2 ≤ (pySplit sep (xs ++ sep :: ys)).length := by
  induction xs with
  | nil =>
    have hne := pySplit_ne_nil sep ys
    simp only [List.nil_append]
    show 2 ≤ (pySplit sep (sep :: ys)).length
    have : pySplit sep (sep :: ys) = [] :: pySplit sep ys := by simp [pySplit]
    rw [this]
    cases h : pySplit sep ys with
    | nil => exact absurd h hne
    | cons a t => simp
  | cons c xs ih =>
    by_cases h : c = sep
    · have : pySplit sep (c :: xs ++ sep :: ys) =
        [] :: pySplit sep (xs ++ sep :: ys) := by simp [pySplit, h]
      rw [this]
      simp only [List.length_cons]
      omega
    · have : pySplit sep (c :: xs ++ sep :: ys) =
        (c :: (pySplit sep (xs ++ sep :: ys)).headD []) ::
          (pySplit sep (xs ++ sep :: ys)).tail := by simp [pySplit, h]
      rw [this]
      simp only [List.length_cons, List.length_tail]
      omega

theorem pySplit_getLastD_append (sep : Char) (xs ys : List Char)
    (h : sep ∉ ys) :
    (pySplit sep (xs ++ sep :: ys)).getLastD [] = ys := by
  induction xs with
  | nil =>
    simp only [List.nil_append]
    show (pySplit sep (sep :: ys)).getLastD [] = ys
    have : pySplit sep (sep :: ys) = [] :: pySplit sep ys := by simp [pySplit]
    rw [this, List.getLastD_cons, pySplit_no_sep sep ys h]
    rfl
  | cons c xs ih =>
    by_cases hc : c = sep
    · have : pySplit sep (c :: xs ++ sep :: ys) =
        [] :: pySplit sep (xs ++ sep :: ys) := by simp [pySplit, hc]
      rw [this, List.getLastD_cons]
      exact ih
    · have hb : pySplit sep (c :: xs ++ sep :: ys) =
        (c :: (pySplit sep (xs ++ sep :: ys)).headD []) ::
          (pySplit sep (xs ++ sep :: ys)).tail := by simp [pySplit, hc]
      have hlen := pySplit_append_sep_length sep xs ys
      rw [hb, List.getLastD_cons]
      cases hr : pySplit sep (xs ++ sep :: ys) with
      | nil => rw [hr] at hlen; simp at hlen
      | cons a t =>
        rw [hr] at ih hlen
        rw [List.getLastD_cons] at ih
        simp only [List.tail_cons]
        cases t with
        | nil => simp at hlen
        | cons b u =>
          rw [List.getLastD_cons] at ih
          rw [List.getLastD_cons]
          exact ih

theorem getLastD_mem {α : Type} : ∀ (l : List α), l ≠ [] → ∀ d : α,
    l.getLastD d ∈ l
  | [a], _, d => by simp [List.getLastD_cons]
  | a :: b :: t, _, d => by
    rw [List.getLastD_cons]
    exact List.mem_cons_of_mem a (getLastD_mem (b :: t) (by simp) a)

theorem pySplit_pieces_no_sep (sep : Char) (s : List Char) :
    ∀ piece ∈ pySplit sep s, sep ∉ piece := by
  induction s with
  | nil =>
    intro p hp
    simp [pySplit] at hp
    subst hp
    simp
  | cons c rest ih =>
    intro p hp
    by_cases hc : c = sep
    · simp [pySplit, hc] at hp
      rcases hp with hp | hp
      · subst hp; simp
      · exact ih p hp
    · simp [pySplit, hc] at hp
      have hne := pySplit_ne_nil sep rest
      rcases hp with hp | hp
      · subst hp
        intro hm
        rcases List.mem_cons.mp hm with he | hm2
        · exact hc he.symm
        · cases hr : pySplit sep rest with
          | nil => exact absurd hr hne
          | cons a t =>
            rw [hr] at hm2
            simp at hm2
            exact ih a (by rw [hr]; exact List.mem_cons_self a t) hm2
      · cases hr : pySplit sep rest with
        | nil => exact absurd hr hne
        | cons a t =>
          rw [hr] at hp
          simp only [List.tail_cons] at hp
          exact ih p (by rw [hr]; exact List.mem_cons_of_mem a hp)

theorem pyStemName_subset (name : List Char) : pyStemName name ⊆ name := by
  unfold pyStemName
  cases h : revDotIdx name.reverse with
  | none => exact fun a ha => ha
  | some j =>
    simp only
    split
    · exact List.take_subset _ _
    · exact fun a ha => ha

theorem pyStem_no_slash (p : String) : '/' ∉ (pyStem p).data := by
  intro hm
  have hname : '/' ∉ (pySplit '/' p.data).getLastD [] :=
    pySplit_pieces_no_sep '/' p.data _
      (getLastD_mem _ (pySplit_ne_nil '/' p.data) [])
  exact hname (pyStemName_subset _ hm)

theorem pyStemName_append_html (st : List Char) (hne : st ≠ []) :
    pyStemName (st ++ (".html".data)) = st := by
  have hrev : (st ++ (".html".data)).reverse =
      'l' :: 'm' :: 't' :: 'h' :: '.' :: st.reverse := by
    rw [List.reverse_append]
    rfl
  have hidx : revDotIdx ((st ++ (".html".data)).reverse) = some 4 := by
    rw [hrev]
    rfl
  have hlen : (st ++ (".html".data)).length = st.length + 5 := by
    simp [List.length_append]
  have hst : 0 < st.length := List.length_pos.mpr hne
  rw [pyStemName]
  rw [hidx]
  simp only [hlen]
  rw [if_pos (by omega)]
  have heq : st.length + 5 - 1 - 4 = st.length := by omega
  rw [heq]
  exact List.take_left' rfl

/-- The fallback path has the same filename stem as the requested output
path (whenever that stem is nonempty). -/
theorem pyStem_fallback (tempDir out : String) (h : pyStem out ≠ "") :
    pyStem (tempDir ++ "/diff_output/" ++ pyStem out ++ ".html") = pyStem out := by
  have hdne : (pyStem out).data ≠ [] := by
    intro hnil
    apply h
    have hmk : pyStem out = String.mk ((pyStem out).data) := rfl
    rw [hmk, hnil]
  have h1 : ("/diff_output/" : String).data =
      ('/' :: 'd' :: 'i' :: 'f' :: 'f' :: '_' :: 'o' :: 'u' :: 't' :: 'p' :: 'u' :: 't' :: []) ++
        ['/'] := rfl
  have hdata : (tempDir ++ "/diff_output/" ++ pyStem out ++ ".html").data =
      (tempDir.data ++
        ('/' :: 'd' :: 'i' :: 'f' :: 'f' :: '_' :: 'o' :: 'u' :: 't' :: 'p' :: 'u' :: 't' :: [])) ++
        '/' :: ((pyStem out).data ++ (".html".data)) := by
    simp only [String.data_append, h1]
    simp [List.append_assoc]
  have hys : '/' ∉ ((pyStem out).data ++ (".html".data)) := by
    intro hm
    rcases List.mem_append.mp hm with hm | hm
    · exact pyStem_no_slash out hm
    · revert hm
      decide
  rw [pyStem, hdata, pySplit_getLastD_append '/' _ _ hys,
    pyStemName_append_html _ hdne]

/-- C9: on success the report is written to the requested output path and
that path is returned; on a permission failure the same content is written
to `<tempdir>/diff_output/<stem>.html` - a path under the process temp
directory built from the output path's filename stem - a warning is logged,
and the returned path is the one actually written; the run never aborts (the
function is total).  When the stem is nonempty the fallback path has exactly
the same filename stem as the requested path. -/
theorem C9_write_fallback (env : WriteEnv) (outputPath content : String) :
    (env.primaryOk = true →
      writeReport env outputPath content =
        { finalPath := outputPath, writes := [(outputPath, content)],
          warned := false }) ∧
    (env.primaryOk = false →
      writeReport env outputPath content =
        { finalPath := env.tempDir ++ "/diff_output/" ++ pyStem outputPath ++ ".html",
          writes := [(env.tempDir ++ "/diff_output/" ++ pyStem outputPath ++ ".html",
            content)],
          warned := true } ∧
      (writeReport env outputPath content).writes =
        [((writeReport env outputPath content).finalPath, content)] ∧
      (pyStem outputPath ≠ "" →
        pyStem (writeReport env outputPath content).finalPath = pyStem outputPath)) := by
  constructor
  · intro h
    rw [writeReport, if_pos h]
  · intro h
    have hrw : writeReport env outputPath content =
        { finalPath := env.tempDir ++ "/diff_output/" ++ pyStem outputPath ++ ".html",
          writes := [(env.tempDir ++ "/diff_output/" ++ pyStem outputPath ++ ".html",
            content)],
          warned := true } := by
      rw [writeReport, if_neg (by rw [h]; exact Bool.false_ne_true)]
    refine ⟨hrw, by rw [hrw], ?_⟩
    intro hstem
    rw [hrw]
    exact pyStem_fallback env.tempDir outputPath hstem

/-- Witness for C9: a permission failure on
`tmp_diff_reports/cts-diff.html` falls back to
`/tmp/diff_output/cts-diff.html`, writing the same content, and the stems
agree. -/
theorem C9_write_fallback_witness :
    writeReport { primaryOk := false, tempDir := "/tmp" }
        "tmp_diff_reports/cts-diff.html" "<html>" =
      { finalPath := "/tmp/diff_output/cts-diff.html",
        writes := [("/tmp/diff_output/cts-diff.html", "<html>")],
        warned := true } ∧
    pyStem (writeReport { primaryOk := false, tempDir := "/tmp" }
      "tmp_diff_reports/cts-diff.html" "<html>").finalPath =
      pyStem "tmp_diff_reports/cts-diff.html" := by
  have h := (C9_write_fallback { primaryOk := false, tempDir := "/tmp" }
    "tmp_diff_reports/cts-diff.html" "<html>").2 rfl
  have hstem : pyStem "/tmp/diff_output/cts-diff.html" = "cts-diff" := by decide
  have hout : pyStem "tmp_diff_reports/cts-diff.html" = "cts-diff" := by decide
  refine ⟨?_, h.2.2 (by decide)⟩
  have happ : ("/tmp" : String) ++ "/diff_output/" ++
      pyStem "tmp_diff_reports/cts-diff.html" ++ ".html" =
      "/tmp/diff_output/cts-diff.html" := by
    rw [hout]
    rfl
  rw [h.1, happ]
